import Mathlib

/-!
Verification development for the takt workflow engine.

Definitions mirror the TypeScript sources where they are present in the
repository (`src/core/workflow/constants.ts`, `src/utils/worktree.ts`,
`src/commands/workflowExecution.ts`, the shared rule-utils module with
`hasTagBasedRules`).  The core engine modules (`WorkflowEngine`,
`MovementExecutor`, `ParallelRunner`, rule evaluation) are not part of the
source tree here; their behaviour is modelled from the specification, and
each such definition carries a doc comment starting `Modelled from the
spec:`.
-/

set_option maxRecDepth 4096

namespace Takt

/-- Aggregate rule type: `all` or `any` (mirrors `aggregateType` values
parsed from `all(...)` / `any(...)` rule syntax). -/
inductive AggregateType where
  | all
  | any
deriving DecidableEq, Repr

/-- A workflow rule, mirroring the TypeScript rule shape used throughout the
repository (tests access `condition`, `next`, `isAiCondition`,
`isAggregateCondition`, `aggregateType`, `aggregateConditionText`). -/
structure WorkflowRule where
  condition : String
  next : String
  isAiCondition : Bool := false
  isAggregateCondition : Bool := false
  aggregateType : Option AggregateType := none
  aggregateConditionText : Option String := none
deriving DecidableEq, Repr

/-- A workflow movement, mirroring the TypeScript `WorkflowMovement` shape:
`rules` is optional in the source (`step.rules` may be undefined). -/
structure WorkflowMovement where
  name : String
  agent : String := ""
  rules : Option (List WorkflowRule) := none
deriving DecidableEq, Repr

/-- A workflow configuration, mirroring the TypeScript `WorkflowConfig`
(`name`, `movements`, `initialMovement`, `maxIterations`). -/
structure WorkflowConfig where
  name : String
  movements : List WorkflowMovement
  initialMovement : String
  maxIterations : Nat
deriving Repr

/-! ## Constants (from `src/core/workflow/constants.ts`) -/

/-- Special movement name for successful termination
(`COMPLETE_MOVEMENT = 'COMPLETE'`). -/
def COMPLETE_MOVEMENT : String := "COMPLETE"

/-- Special movement name for aborting termination
(`ABORT_MOVEMENT = 'ABORT'`). -/
def ABORT_MOVEMENT : String := "ABORT"

namespace ERROR_MESSAGES

/-- Error message `ERROR_MESSAGES.LOOP_DETECTED` from `constants.ts`. -/
def LOOP_DETECTED (movementName : String) (count : Nat) : String :=
  s!"Loop detected: movement \"{movementName}\" ran {count} times consecutively without progress."

/-- Error message `ERROR_MESSAGES.UNKNOWN_MOVEMENT` from `constants.ts`. -/
def UNKNOWN_MOVEMENT (movementName : String) : String :=
  s!"Unknown movement: {movementName}"

/-- Error message `ERROR_MESSAGES.MOVEMENT_EXECUTION_FAILED` from
`constants.ts`. -/
def MOVEMENT_EXECUTION_FAILED (message : String) : String :=
  s!"Movement execution failed: {message}"

/-- Error message `ERROR_MESSAGES.MAX_ITERATIONS_REACHED` from
`constants.ts`. -/
def MAX_ITERATIONS_REACHED : String := "Max iterations reached"

end ERROR_MESSAGES

/-! ## Rule Matcher

Modelled from the spec (§4.1): the rule evaluation module
(`core/workflow/evaluation`, `detectMatchedRule`) is not in the source tree.
-/

/-- Modelled from the spec: leaf-rule match test (§4.1).  A `tagBased` rule
matches iff the signal's tag equals (case-sensitive, exact) its `condition`;
an `aiCondition` rule matches iff the caller-supplied judgment capability
classifies the response as satisfying the condition text; aggregate rules
never match in the leaf path. -/
def ruleMatchesLeaf (classify : String → Bool) (tag : String)
    (r : WorkflowRule) : Bool :=
  if r.isAggregateCondition then false
  else if r.isAiCondition then classify r.condition
  else tag == r.condition

/-- Modelled from the spec: leaf resolution (§4.1) iterates rules in declared
order and returns the first matching rule (`NoMatch` is `none`). -/
def resolveLeaf (classify : String → Bool) (rules : List WorkflowRule)
    (tag : String) : Option WorkflowRule :=
  rules.find? (ruleMatchesLeaf classify tag)

/-- Modelled from the spec: aggregate-rule match test (§4.1).  For an `all`
aggregate rule the rule matches iff every sub-movement's resolved condition
text equals `aggregateConditionText`; for `any`, iff at least one does. -/
def aggRuleMatches (outcomes : List (String × String)) (r : WorkflowRule) :
    Bool :=
  match r.aggregateType, r.aggregateConditionText with
  | some .all, some t => outcomes.all (fun o => o.2 == t)
  | some .any, some t => outcomes.any (fun o => o.2 == t)
  | _, _ => false

/-- Modelled from the spec: fan-out resolution (§4.1) evaluates aggregate
rules in declared order and returns the first that matches. -/
def resolveAggregate (rules : List WorkflowRule)
    (outcomes : List (String × String)) : Option WorkflowRule :=
  rules.find? (aggRuleMatches outcomes)

/-! ## Tag-based rules and the status-judgment phase -/

/-- Check whether a movement has tag-based rules, from the shared rule-utils
source: returns `false` when `step.rules` is undefined or empty, or when
every rule is an `ai()` or aggregate condition (`step.rules.every((r) =>
r.isAiCondition || r.isAggregateCondition)`), and `true` otherwise. -/
def hasTagBasedRules (step : WorkflowMovement) : Bool :=
  match step.rules with
  | none => false
  | some rs =>
    if rs.isEmpty then false
    else !(rs.all (fun r => r.isAiCondition || r.isAggregateCondition))

/-- Modelled from the spec: whether a phase-1 response already carries an
unambiguous tag, i.e. a tag matching one of the movement's `tagBased` rules
(§4.2 phase 3, §8 *Phase skip*). -/
def phase1TagIsValid (step : WorkflowMovement) (phase1Tag : Option String) :
    Bool :=
  match phase1Tag with
  | none => false
  | some t =>
    (step.rules.getD []).any
      (fun r => !r.isAiCondition && !r.isAggregateCondition && r.condition == t)

/-- Modelled from the spec: the phase-runner's decision to issue the phase-3
status-judgment round-trip (§4.2): it runs only if the movement has at least
one `tagBased` rule and the phase-1 response did not already carry an
unambiguous tag.  The phase-runner module itself is not in the source tree;
`needsStatusJudgmentPhase` appears only as an import in
`features/prompt/preview.ts`. -/
def runsStatusJudgmentPhase (step : WorkflowMovement)
    (phase1Tag : Option String) : Bool :=
  hasTagBasedRules step && !phase1TagIsValid step phase1Tag

/-! ## Movement Executor and Workflow Engine

Modelled from the spec (§4.3, §4.5): `MovementExecutor.ts` and
`WorkflowEngine.ts` are not in the source tree.
-/

/-- Errors surfaced to the caller of `run()` (§7 configuration errors).  A
leaf `NoMatch` carries the movement name and the tag signal; a fan-out
`NoMatch` carries the movement name and the outcomes signal (the mapping
from sub-movement name to its resolved condition text). -/
inductive ExecError where
  | noMatch (movementName : String) (signal : String)
  | noAggregateMatch (movementName : String)
      (outcomes : List (String × String))
  | unknownMovement (movementName : String)
  | fuelExhausted
deriving DecidableEq, Repr

/-- Final run status (§4.5 state machine). -/
inductive RunStatus where
  | completed
  | aborted
deriving DecidableEq, Repr

/-- Final state returned by `run()`: status, abort reason (if any), and the
number of movement executions performed (`globalIteration`). -/
structure FinalState where
  status : RunStatus
  reason : Option String
  iteration : Nat
deriving DecidableEq, Repr

/-- Engine loop state (§3 RunState): current movement, `globalIteration`,
and the consecutive count of the loop-detection heuristic. -/
structure RunState where
  current : String
  iteration : Nat
  consecutive : Nat
deriving DecidableEq, Repr

/-- Modelled from the spec: leaf movement execution (§4.3).  The phase
protocol's resulting tag is supplied by the oracle `tag`; the executor feeds
it to the Rule Matcher and fails with a fatal error identifying the movement
and the signal when the Rule Matcher returns `NoMatch`. -/
def executeLeaf (classify : String → Bool) (m : WorkflowMovement)
    (tag : String) : Except ExecError String :=
  match resolveLeaf classify (m.rules.getD []) tag with
  | some r => .ok r.next
  | none => .error (.noMatch m.name tag)

/-- Modelled from the spec: fan-out movement resolution (§4.3).  After the
Parallel Runner joins, the branch outcomes (sub-movement name ↦ resolved
condition text) are resolved against the parent movement's aggregate rules;
when the Rule Matcher's fan-out path returns `NoMatch`, the executor fails
with a fatal error identifying the movement and the outcomes signal. -/
def executeFanOut (m : WorkflowMovement)
    (outcomes : List (String × String)) : Except ExecError String :=
  match resolveAggregate (m.rules.getD []) outcomes with
  | some r => .ok r.next
  | none => .error (.noAggregateMatch m.name outcomes)

/-- Modelled from the spec: the loop-detection consecutive-repeat threshold
("same movement chosen as next target three consecutive times", §4.5 step
7). -/
def LOOP_THRESHOLD : Nat := 3

/-- Modelled from the spec: the Workflow Engine main loop (§4.5), fuel-based.
Once per iteration: (1) if `globalIteration ≥ maxIterations` abort with the
max-iterations reason; (2) increment the counter; (4) invoke the Movement
Executor (the agent's phase-protocol tag for each execution is supplied by
the oracle `tags`, indexed by the iteration number); (7) if the same movement
is chosen as next target `LOOP_THRESHOLD` consecutive times abort with a
`LOOP_DETECTED` reason; (8) otherwise set the current movement to the
resolved next, terminating on the `COMPLETE`/`ABORT` sentinels. -/
def runLoop (cfg : WorkflowConfig) (tags : Nat → String → String)
    (classify : String → Bool) :
    Nat → RunState → Except ExecError FinalState
  | 0, _ => .error .fuelExhausted
  | fuel + 1, st =>
    if st.iteration ≥ cfg.maxIterations then
      .ok ⟨.aborted, some ERROR_MESSAGES.MAX_ITERATIONS_REACHED, st.iteration⟩
    else
      match cfg.movements.find? (fun m => m.name == st.current) with
      | none => .error (.unknownMovement st.current)
      | some m =>
        let iter := st.iteration + 1
        let tag := tags iter m.name
        match executeLeaf classify m tag with
        | .error e => .error e
        | .ok next =>
          let consec := if next == m.name then st.consecutive + 1 else 0
          if consec ≥ LOOP_THRESHOLD then
            .ok ⟨.aborted, some (ERROR_MESSAGES.LOOP_DETECTED m.name consec),
                 iter⟩
          else if next == COMPLETE_MOVEMENT then
            .ok ⟨.completed, none, iter⟩
          else if next == ABORT_MOVEMENT then
            .ok ⟨.aborted, some ABORT_MOVEMENT, iter⟩
          else
            runLoop cfg tags classify fuel ⟨next, iter, consec⟩

/-- Modelled from the spec: `run()` starts at `definition.initialMovement`
with zeroed counters (§4.5); the fuel `maxIterations + 1` suffices because
every recursive call increases `globalIteration` by one and the loop stops
as soon as it reaches `maxIterations`. -/
def run (cfg : WorkflowConfig) (tags : Nat → String → String)
    (classify : String → Bool) : Except ExecError FinalState :=
  runLoop cfg tags classify (cfg.maxIterations + 1) ⟨cfg.initialMovement, 0, 0⟩

/-! ## Parallel Runner

Modelled from the spec (§4.4): `ParallelRunner.ts` is not in the source
tree.  Concurrency is embedded by making the completion order an explicit
parameter: the runner receives `(index, result)` pairs in an arbitrary
completion order (any permutation of the branch indices) and reassembles
them by input index, so the returned array is a total function of *all*
settled branch results and is independent of completion order.
-/

/-- Modelled from the spec: the stream of per-branch completions.  Branch
`i`'s settled result is `f i` (an error or its resolved outcome condition);
`order` is the completion order. -/
def completionArrivals (f : Nat → Except String String) (order : List Nat) :
    List (Nat × Except String String) :=
  order.map (fun i => (i, f i))

/-- Modelled from the spec: the join reassembles the settled results by input
index (`none` marks a branch that has not completed; the runner only returns
once no `none` remains). -/
def joinInInputOrder (n : Nat)
    (arrivals : List (Nat × Except String String)) :
    List (Option (Except String String)) :=
  (List.range n).map (fun i => arrivals.lookup i)

/-- Modelled from the spec: `runAll`'s settled outcome array for `n` branches
with settled results `f` completing in `order`. -/
def runAllSettled (n : Nat) (f : Nat → Except String String)
    (order : List Nat) : List (Option (Except String String)) :=
  joinInInputOrder n (completionArrivals f order)

/-- Modelled from the spec: the first failure among the settled results in
input order (the failure propagated after the join, §4.4). -/
def firstFailure (settled : List (Except String String)) : Option String :=
  settled.findSome? (fun r => match r with | .error e => some e | .ok _ => none)

/-! ## Session persistence and `executeWorkflow`

The session store operations are modelled from the spec (§6 Session
persistence: `load() → sessionMap`, `save(agentIdentity, token)`,
`clear()`); `config/paths.ts` is not in the source tree.  The call sequence
is embedded from `src/commands/workflowExecution.ts`.
-/

/-- A persisted session map: agent identity → opaque session token. -/
abbrev SessionMap := List (String × String)

/-- Modelled from the spec: `clear()` empties the persisted session store. -/
def clearAgentSessions (_store : SessionMap) : SessionMap := []

/-- Modelled from the spec: `load()` returns the persisted session map. -/
def loadAgentSessions (store : SessionMap) : SessionMap := store

/-- Modelled from the spec: `save(agentIdentity, token)` records the new
token for the agent, replacing any previous one. -/
def updateAgentSession (store : SessionMap) (agentName sessionId : String) :
    SessionMap :=
  (agentName, sessionId) :: store.filter (fun p => p.1 != agentName)

/-- From `src/commands/workflowExecution.ts` (lines 66–104): if not resuming,
clear previous agent sessions; then load saved agent sessions and hand them
to the engine as `initialSessions`.  Returns the store after the prelude and
the `initialSessions` the engine is constructed with. -/
def executeWorkflowPrelude (store : SessionMap) (resumeSession : Bool) :
    SessionMap × SessionMap :=
  let store1 := if resumeSession then store else clearAgentSessions store
  let savedSessions := loadAgentSessions store1
  (store1, savedSessions)

/-- From `src/commands/workflowExecution.ts`: the `sessionUpdateHandler`
persists every session update via `updateAgentSession`. -/
def sessionUpdateHandler (store : SessionMap) (agentName sessionId : String) :
    SessionMap :=
  updateAgentSession store agentName sessionId

/-- Modelled from the spec: the session token the engine includes in the next
invocation of an agent is the token held for that agent identity in its
session map (§6 Agent invocation). -/
def invokeSessionToken (sessions : SessionMap) (agentName : String) :
    Option String :=
  sessions.lookup agentName

/-! ## Worktree configuration parsing (from `src/utils/worktree.ts`)

`parseWorktreeConfig` matches the regular expression
`/worktree:\s*\n\s*baseBranch:\s*(\S+)\s*\n\s*branchName:\s*(\S+)/` against
the content.  The embedding simulates the JavaScript regex engine on this
pattern: because `\s` and `\S` are disjoint and every literal in the pattern
begins with a non-whitespace character, greedy matching with backtracking is
equivalent to the deterministic maximal-munch matcher implemented here, and
the scan over start positions yields the leftmost match.
-/

/-- JavaScript `\s` character class (ECMA-262 WhiteSpace ∪ LineTerminator):
space, tab, LF, VT, FF, CR, NBSP, and the Unicode space separators. -/
def isJsWs (c : Char) : Bool :=
  c == ' ' || c == '\t' || c == '\n' || c == '\x0b' || c == '\x0c' ||
  c == '\r' || c == '\u00A0' || c == '\u1680' ||
  ('\u2000' ≤ c && c ≤ '\u200A') || c == '\u2028' || c == '\u2029' ||
  c == '\u202F' || c == '\u205F' || c == '\u3000' || c == '\uFEFF'

/-- Strip an exact literal prefix, returning the remainder. -/
def stripLit : List Char → List Char → Option (List Char)
  | [], cs => some cs
  | _ :: _, [] => none
  | l :: ls, c :: cs => if c == l then stripLit ls cs else none

/-- Consume the pattern fragment `\s*\n\s*`: the maximal whitespace run,
which must contain a line feed (the next pattern element is always a literal
starting with a non-whitespace character, so the greedy regex consumes
exactly the maximal run). -/
def wsNewlineGap (cs : List Char) : Option (List Char) :=
  if (cs.takeWhile isJsWs).contains '\n' then some (cs.dropWhile isJsWs)
  else none

/-- Consume the pattern fragment `\s*(\S+)`: skip whitespace, then capture
the maximal non-empty non-whitespace run. -/
def takeToken (cs : List Char) : Option (List Char × List Char) :=
  let rest := cs.dropWhile isJsWs
  let tok := rest.takeWhile (fun c => !isJsWs c)
  if tok.isEmpty then none
  else some (tok, rest.dropWhile (fun c => !isJsWs c))

/-- Attempt the whole worktree pattern at the current position, returning the
two captures. -/
def matchWorktreeAt (cs : List Char) : Option (List Char × List Char) :=
  match stripLit "worktree:".data cs with
  | none => none
  | some r1 =>
    match wsNewlineGap r1 with
    | none => none
    | some r2 =>
      match stripLit "baseBranch:".data r2 with
      | none => none
      | some r3 =>
        match takeToken r3 with
        | none => none
        | some (v1, r4) =>
          match wsNewlineGap r4 with
          | none => none
          | some r5 =>
            match stripLit "branchName:".data r5 with
            | none => none
            | some r6 =>
              match takeToken r6 with
              | none => none
              | some (v2, _) => some (v1, v2)

/-- Scan start positions left to right for the leftmost match (the behaviour
of an unanchored JavaScript regex). -/
def scanWorktree : List Char → Option (List Char × List Char)
  | [] => none
  | c :: cs =>
    match matchWorktreeAt (c :: cs) with
    | some r => some r
    | none => scanWorktree cs

/-- Worktree configuration from Planner output (`WorktreeConfig` in
`src/utils/worktree.ts`). -/
structure WorktreeConfig where
  baseBranch : String
  branchName : String
deriving DecidableEq, Repr

/-- Parse worktree configuration from Planner output
(`parseWorktreeConfig` in `src/utils/worktree.ts`): on a match, the two
captures become `baseBranch` and `branchName`; otherwise `null`. -/
def parseWorktreeConfig (content : String) : Option WorktreeConfig :=
  match scanWorktree content.data with
  | some (v1, v2) => some ⟨⟨v1⟩, ⟨v2⟩⟩
  | none => none

/-- A whitespace run (every character satisfies `\s`). -/
def IsWsRun (w : List Char) : Prop := ∀ c ∈ w, isJsWs c = true

/-- A captured token: non-empty and free of whitespace (`\S+`). -/
def IsTok (v : List Char) : Prop := v ≠ [] ∧ ∀ c ∈ v, isJsWs c = false

/-- The structural content of a match of the worktree regex: somewhere in the
content, `worktree:` is followed (across at least one line break) by a
`baseBranch:` key with a non-whitespace value, itself followed (across at
least one line break) by a `branchName:` key with a non-whitespace value, in
that order. -/
def HasWorktreeBlock (content : String) : Prop :=
  ∃ pre w1 w2 v1 w3 w4 v2 suf,
    content.data =
      pre ++ "worktree:".data ++ w1 ++ "baseBranch:".data ++ w2 ++ v1 ++
        w3 ++ "branchName:".data ++ w4 ++ v2 ++ suf ∧
    IsWsRun w1 ∧ '\n' ∈ w1 ∧ IsWsRun w2 ∧ IsTok v1 ∧
    IsWsRun w3 ∧ '\n' ∈ w3 ∧ IsWsRun w4 ∧ IsTok v2

/-! ## Branch name sanitisation (from `src/utils/worktree.ts`)

`sanitizeBranchName` lower-cases, replaces every character outside
`[a-z0-9-]` with `-`, collapses each hyphen run `-+` to a single `-`,
strips `^-|-$` (one leading and one trailing hyphen), and slices to the
first 50 units.
-/

/-- ASCII lower-casing, modelling `String.prototype.toLowerCase` on the
characters that can survive the subsequent `[^a-z0-9-]` replacement (any
character whose JavaScript lower-casing differs from this map is not in
`[a-z0-9-]` here and is replaced by `-` in the next stage either way). -/
def jsToLower (c : Char) : Char :=
  if 'A' ≤ c && c ≤ 'Z' then Char.ofNat (c.toNat + 32) else c

/-- Characters kept by the `[^a-z0-9-]` → `-` replacement. -/
def isAllowedChar (c : Char) : Bool :=
  ('a' ≤ c && c ≤ 'z') || ('0' ≤ c && c ≤ '9') || c == '-'

/-- The `replace(/[^a-z0-9-]/g, '-')` stage. -/
def replaceDisallowed (cs : List Char) : List Char :=
  cs.map (fun c => if isAllowedChar c then c else '-')

/-- The hyphen-collapsing stage: each run of hyphens `-+` becomes one `-`. -/
def collapseDashes : List Char → List Char
  | [] => []
  | [c] => [c]
  | c :: d :: rest =>
    if c == '-' && d == '-' then collapseDashes (d :: rest)
    else c :: collapseDashes (d :: rest)

/-- The `replace(/^-|-$/g, '')` stage, leading half: the regex removes one
leading hyphen. -/
def stripLeadDash : List Char → List Char
  | [] => []
  | c :: rest => if c == '-' then rest else c :: rest

/-- The `replace(/^-|-$/g, '')` stage, trailing half: the regex removes one
trailing hyphen. -/
def stripTrailDash (cs : List Char) : List Char :=
  if cs.getLast? == some '-' then cs.dropLast else cs

/-- Sanitize branch name for use in a directory name
(`sanitizeBranchName` in `src/utils/worktree.ts`).  After the
`[^a-z0-9-]` replacement every character is ASCII, so the final
`slice(0, 50)` (UTF-16 units) coincides with taking 50 characters. -/
def sanitizeBranchName (branchName : String) : String :=
  ⟨(stripTrailDash (stripLeadDash (collapseDashes
      (replaceDisallowed (branchName.data.map jsToLower))))).take 50⟩

/-- No two consecutive hyphens. -/
def noDoubleDash : List Char → Bool
  | [] => true
  | [_] => true
  | c :: d :: rest => !(c == '-' && d == '-') && noDoubleDash (d :: rest)

/-! ## Concrete builders used in examples (mirroring the test helpers) -/

/-- A plain tag-based rule (the test helper `makeRule(condition, next)`). -/
def makeRule (condition next : String) : WorkflowRule :=
  ⟨condition, next, false, false, none, none⟩

/-- An aggregate rule of the given type over the given condition text. -/
def makeAggRule (t : AggregateType) (text next : String) : WorkflowRule :=
  ⟨text, next, false, true, some t, some text⟩

/-- A one-movement workflow whose only rule points back to itself. -/
def selfLoopCfg (maxIter : Nat) : WorkflowConfig :=
  ⟨"w", [⟨"impl", "", some [makeRule "again" "impl"]⟩], "impl", maxIter⟩

end Takt

namespace Takt

/-! ## Theorems -/

/-- **C1.** For every ordered list of rules and every match signal, the Rule
Matcher returns the first matching rule in declaration order (a returned
rule matches, and every rule declared before it does not); in particular,
for rules `[{condition:"done", next:"COMPLETE"}, {condition:"done",
next:"X"}]` and tag `"done"`, the resolved next movement is `COMPLETE`. -/
theorem claim_C1 :
    (∀ (classify : String → Bool) (rules : List WorkflowRule) (tag : String)
        (r : WorkflowRule),
      resolveLeaf classify rules tag = some r ↔
        ruleMatchesLeaf classify tag r = true ∧
        ∃ pre post, rules = pre ++ r :: post ∧
          ∀ r' ∈ pre, ruleMatchesLeaf classify tag r' = false) ∧
    (∀ classify : String → Bool,
      (resolveLeaf classify [makeRule "done" "COMPLETE", makeRule "done" "X"]
          "done").map WorkflowRule.next = some "COMPLETE") := by
  constructor
  · intro classify rules tag r
    simp only [resolveLeaf, List.find?_eq_some, Bool.not_eq_true']
  · intro classify
    rfl

/-- Witness for C1: the concrete priority example, obtained by applying
`claim_C1`. -/
theorem claim_C1_witness :
    (resolveLeaf (fun _ => false)
        [makeRule "done" "COMPLETE", makeRule "done" "X"] "done").map
      WorkflowRule.next = some "COMPLETE" :=
  claim_C1.2 (fun _ => false)

/-- **C2.** For every fan-out movement's aggregate rules and every mapping
from sub-movement names to their resolved condition texts: an `all` rule
with `aggregateConditionText` `t` matches iff every sub-movement's resolved
condition text equals `t`, an `any` rule matches iff at least one does, and
aggregate rules are evaluated in declared order with the first match
returned. -/
theorem claim_C2 :
    (∀ (outcomes : List (String × String)) (r : WorkflowRule) (t : String),
      r.aggregateType = some .all → r.aggregateConditionText = some t →
      (aggRuleMatches outcomes r = true ↔ ∀ o ∈ outcomes, o.2 = t)) ∧
    (∀ (outcomes : List (String × String)) (r : WorkflowRule) (t : String),
      r.aggregateType = some .any → r.aggregateConditionText = some t →
      (aggRuleMatches outcomes r = true ↔ ∃ o ∈ outcomes, o.2 = t)) ∧
    (∀ (rules : List WorkflowRule) (outcomes : List (String × String))
        (r : WorkflowRule),
      resolveAggregate rules outcomes = some r ↔
        aggRuleMatches outcomes r = true ∧
        ∃ pre post, rules = pre ++ r :: post ∧
          ∀ r' ∈ pre, aggRuleMatches outcomes r' = false) := by
  refine ⟨?_, ?_, ?_⟩
  · intro outcomes r t hty htx
    simp [aggRuleMatches, hty, htx]
  · intro outcomes r t hty htx
    simp [aggRuleMatches, hty, htx]
  · intro rules outcomes r
    simp only [resolveAggregate, List.find?_eq_some, Bool.not_eq_true']

/-- Witness for C2: four sub-movements resolving to `"approved"` satisfy an
`all("approved")` rule; the same four with one `"needs_fix"` branch satisfy
an `any("needs_fix")` rule; both obtained by applying `claim_C2`. -/
theorem claim_C2_witness :
    aggRuleMatches
        [("arch-review", "approved"), ("frontend-review", "approved"),
         ("security-review", "approved"), ("qa-review", "approved")]
        (makeAggRule .all "approved" "COMPLETE") = true ∧
    aggRuleMatches
        [("arch-review", "approved"), ("frontend-review", "approved"),
         ("security-review", "approved"), ("qa-review", "needs_fix")]
        (makeAggRule .any "needs_fix" "implement") = true := by
  constructor
  · exact (claim_C2.1 _ _ "approved" rfl rfl).mpr (by decide)
  · exact (claim_C2.2.1 _ _ "needs_fix" rfl rfl).mpr (by decide)

/-- **C5.** The phase-3 status-judgment round-trip is issued iff the movement
has at least one `tagBased` rule and the phase-1 response did not already
carry an unambiguous tag; `hasTagBasedRules` returns `false` exactly when
the rule list is empty or every rule is an `aiCondition` or aggregate rule;
and if phase 1 already yielded a valid tag matching one of the movement's
`tagBased` rules, phase 3 is never invoked. -/
theorem claim_C5 :
    ∀ (step : WorkflowMovement) (phase1Tag : Option String),
      (runsStatusJudgmentPhase step phase1Tag = true ↔
        (∃ r ∈ step.rules.getD [],
            r.isAiCondition = false ∧ r.isAggregateCondition = false) ∧
        phase1TagIsValid step phase1Tag = false) ∧
      (hasTagBasedRules step = false ↔
        (step.rules.getD [] = [] ∨
          ∀ r ∈ step.rules.getD [],
            r.isAiCondition = true ∨ r.isAggregateCondition = true)) ∧
      (phase1TagIsValid step phase1Tag = true →
        runsStatusJudgmentPhase step phase1Tag = false) := by
  intro step phase1Tag
  have hchar : hasTagBasedRules step = true ↔
      ∃ r ∈ step.rules.getD [],
        r.isAiCondition = false ∧ r.isAggregateCondition = false := by
    obtain ⟨name, agent, rules⟩ := step
    cases rules with
    | none => simp [hasTagBasedRules]
    | some rs =>
      cases rs with
      | nil => simp [hasTagBasedRules]
      | cons r rest =>
        simp [hasTagBasedRules, List.all_eq_true, not_forall]
  refine ⟨?_, ?_, ?_⟩
  · rw [runsStatusJudgmentPhase, Bool.and_eq_true, Bool.not_eq_true', hchar]
  · rw [← Bool.not_eq_true, hchar]
    push_neg
    constructor
    · intro h
      refine Or.inr (fun r hr => ?_)
      rcases Bool.eq_false_or_eq_true r.isAiCondition with hai | hai
      · exact Or.inl hai
      · refine Or.inr ?_
        have hne := h r hr hai
        simpa using hne
    · rintro (hnil | hall) r hr hai
      · rw [hnil] at hr
        cases hr
      · rcases hall r hr with h | h
        · rw [hai] at h
          cases h
        · simp [h]
  · intro hvalid
    simp [runsStatusJudgmentPhase, hvalid]

/-- Witness for C5: a movement whose single rule is tag-based runs phase 3
when phase 1 carried no tag, and skips phase 3 when phase 1 already carried
the valid tag `"done"`; obtained by applying `claim_C5`. -/
theorem claim_C5_witness :
    runsStatusJudgmentPhase ⟨"plan", "", some [makeRule "done" "COMPLETE"]⟩
        (some "done") = false :=
  (claim_C5 ⟨"plan", "", some [makeRule "done" "COMPLETE"]⟩
      (some "done")).2.2 (by decide)

/-- **C7.** `executeWorkflow` with `resumeSession = false` clears the
persisted agent session map before the engine is constructed, so the engine
starts with a fresh session map (no agent has a token); with
`resumeSession = true` it loads the persisted session map and passes it to
the engine as `initialSessions`, so the next invocation of an agent with a
persisted token includes that token (e.g. `planner ↦ tok-1`); and after
every session update the new token is persisted via `updateAgentSession`. -/
theorem claim_C7 :
    (∀ store : SessionMap, executeWorkflowPrelude store false = ([], [])) ∧
    (∀ store : SessionMap,
      executeWorkflowPrelude store true = (store, store)) ∧
    (invokeSessionToken
        (executeWorkflowPrelude [("planner", "tok-1")] true).2 "planner" =
      some "tok-1") ∧
    (∀ agent : String,
      invokeSessionToken
        (executeWorkflowPrelude [("planner", "tok-1")] false).2 agent =
        none) ∧
    (∀ (store : SessionMap) (agentName sessionId : String),
      invokeSessionToken (sessionUpdateHandler store agentName sessionId)
          agentName = some sessionId) := by
  refine ⟨fun _ => rfl, fun _ => rfl, rfl, fun _ => rfl, ?_⟩
  intro store agentName sessionId
  simp [invokeSessionToken, sessionUpdateHandler, updateAgentSession,
    List.lookup]

/-- Witness for C7: a concrete resumed run passes the persisted `planner`
token to the engine; obtained by applying `claim_C7`. -/
theorem claim_C7_witness :
    invokeSessionToken
        (executeWorkflowPrelude [("planner", "tok-1")] true).2 "planner" =
      some "tok-1" :=
  claim_C7.2.2.1

/-- **C3.** The engine executes at most `maxIterations` movement executions:
any run that returns a final state has performed at most `maxIterations`
executions; whenever `globalIteration ≥ maxIterations` at the top of the
main loop, the run transitions to `aborted` with the reason
`'Max iterations reached'`; and with `maxIterations = 1` and a movement
whose rule points to itself, the run aborts after exactly one movement
execution. -/
theorem claim_C3 :
    (∀ (cfg : WorkflowConfig) (tags : Nat → String → String)
        (classify : String → Bool) (fuel : Nat) (st : RunState)
        (final : FinalState),
      st.iteration ≤ cfg.maxIterations →
      runLoop cfg tags classify fuel st = .ok final →
      final.iteration ≤ cfg.maxIterations) ∧
    (∀ (cfg : WorkflowConfig) (tags : Nat → String → String)
        (classify : String → Bool) (final : FinalState),
      run cfg tags classify = .ok final →
      final.iteration ≤ cfg.maxIterations) ∧
    (∀ (cfg : WorkflowConfig) (tags : Nat → String → String)
        (classify : String → Bool) (fuel : Nat) (st : RunState),
      cfg.maxIterations ≤ st.iteration →
      runLoop cfg tags classify (fuel + 1) st =
        .ok ⟨.aborted, some ERROR_MESSAGES.MAX_ITERATIONS_REACHED,
             st.iteration⟩) ∧
    (∀ classify : String → Bool,
      run (selfLoopCfg 1) (fun _ _ => "again") classify =
        .ok ⟨.aborted, some ERROR_MESSAGES.MAX_ITERATIONS_REACHED, 1⟩) := by
  have part1 : ∀ (cfg : WorkflowConfig) (tags : Nat → String → String)
      (classify : String → Bool) (fuel : Nat) (st : RunState)
      (final : FinalState),
      st.iteration ≤ cfg.maxIterations →
      runLoop cfg tags classify fuel st = .ok final →
      final.iteration ≤ cfg.maxIterations := by
    intro cfg tags classify fuel
    induction fuel with
    | zero =>
      intro st final _ h
      simp [runLoop] at h
    | succ fuel ih =>
      intro st final hle h
      rw [runLoop] at h
      split at h
      · cases h
        exact hle
      · rename_i hlt
        dsimp only at h
        repeat' split at h
        all_goals try cases h
        all_goals try (exact ih _ final (by dsimp only; omega) h)
        all_goals dsimp only
        all_goals omega
  refine ⟨part1, ?_, ?_, ?_⟩
  · intro cfg tags classify final h
    exact part1 cfg tags classify (cfg.maxIterations + 1) ⟨cfg.initialMovement, 0, 0⟩
      final (Nat.zero_le _) h
  · intro cfg tags classify fuel st h
    rw [runLoop]
    rw [if_pos (by omega : st.iteration ≥ cfg.maxIterations)]
  · intro classify
    rfl

/-- Witness for C3: a state already at the iteration budget aborts at the
top of the loop with the max-iterations reason; obtained by applying
`claim_C3`. -/
theorem claim_C3_witness :
    runLoop (selfLoopCfg 3) (fun _ _ => "again") (fun _ => false) 1
        ⟨"impl", 5, 0⟩ =
      .ok ⟨.aborted, some ERROR_MESSAGES.MAX_ITERATIONS_REACHED, 5⟩ :=
  claim_C3.2.2.1 (selfLoopCfg 3) (fun _ _ => "again") (fun _ => false) 0
    ⟨"impl", 5, 0⟩ (by decide)

/-- One engine iteration of the self-loop workflow below the loop-detection
threshold: the iteration and consecutive counters both advance. -/
theorem selfLoop_step (m fuel i c : Nat) (classify : String → Bool)
    (hi : i < m) (hc : c + 1 < 3) :
    runLoop (selfLoopCfg m) (fun _ _ => "again") classify (fuel + 1)
      ⟨"impl", i, c⟩ =
    runLoop (selfLoopCfg m) (fun _ _ => "again") classify fuel
      ⟨"impl", i + 1, c + 1⟩ := by
  rw [runLoop]
  simp only [selfLoopCfg]
  rw [if_neg (by omega : ¬ i ≥ m)]
  simp [executeLeaf, resolveLeaf, ruleMatchesLeaf, makeRule, List.find?,
    LOOP_THRESHOLD, COMPLETE_MOVEMENT, ABORT_MOVEMENT]
  exact fun h => absurd h (by omega)

/-- One engine iteration of the self-loop workflow at the loop-detection
threshold: the run aborts with the `LOOP_DETECTED` reason. -/
theorem selfLoop_abort (m fuel i : Nat) (classify : String → Bool)
    (hi : i < m) :
    runLoop (selfLoopCfg m) (fun _ _ => "again") classify (fuel + 1)
      ⟨"impl", i, 2⟩ =
    .ok ⟨.aborted, some (ERROR_MESSAGES.LOOP_DETECTED "impl" 3), i + 1⟩ := by
  rw [runLoop]
  simp only [selfLoopCfg]
  rw [if_neg (by omega : ¬ i ≥ m)]
  simp [executeLeaf, resolveLeaf, ruleMatchesLeaf, makeRule, List.find?,
    LOOP_THRESHOLD]

/-- **C4.** With the consecutive-repeat threshold of 3: a workflow whose only
rule always returns to the same movement (run under any iteration budget of
at least 4, so the budget guard does not fire first) aborts with the
`LOOP_DETECTED` reason after exactly three movement executions — the same
movement was chosen as the next target three consecutive times — never
after fewer, never later. -/
theorem claim_C4 :
    ∀ (m : Nat) (classify : String → Bool),
      run (selfLoopCfg (m + 4)) (fun _ _ => "again") classify =
        .ok ⟨.aborted, some (ERROR_MESSAGES.LOOP_DETECTED "impl" 3), 3⟩ := by
  intro m classify
  have h1 : (selfLoopCfg (m + 4)).maxIterations = m + 4 := rfl
  have h2 : (selfLoopCfg (m + 4)).initialMovement = "impl" := rfl
  rw [run, h1, h2]
  rw [show m + 4 + 1 = (m + 3) + 1 + 1 by omega]
  rw [selfLoop_step (m + 4) (m + 3 + 1) 0 0 classify (by omega) (by omega)]
  rw [selfLoop_step (m + 4) (m + 3) 1 1 classify (by omega) (by omega)]
  rw [show m + 3 = (m + 2) + 1 by omega]
  rw [selfLoop_abort (m + 4) (m + 2) 2 classify (by omega)]

/-- Witness for C4: the self-loop workflow with budget 10 aborts with
`LOOP_DETECTED` after exactly three executions; obtained by applying
`claim_C4`. -/
theorem claim_C4_witness :
    run (selfLoopCfg 10) (fun _ _ => "again") (fun _ => false) =
      .ok ⟨.aborted, some (ERROR_MESSAGES.LOOP_DETECTED "impl" 3), 3⟩ :=
  claim_C4 6 (fun _ => false)

/-- **C6.** Whenever the Rule Matcher returns `NoMatch` for a movement's
signal — leaf or fan-out — the Movement Executor raises a fatal error
identifying the movement and the signal that failed to match (the tag on the
leaf path, the branch-outcomes mapping on the fan-out path), and the
engine's main loop surfaces that error to the caller of `run()` instead of
continuing to any next movement. -/
theorem claim_C6 :
    (∀ (classify : String → Bool) (m : WorkflowMovement) (tag : String),
      resolveLeaf classify (m.rules.getD []) tag = none →
      executeLeaf classify m tag = .error (.noMatch m.name tag)) ∧
    (∀ (m : WorkflowMovement) (outcomes : List (String × String)),
      resolveAggregate (m.rules.getD []) outcomes = none →
      executeFanOut m outcomes =
        .error (.noAggregateMatch m.name outcomes)) ∧
    (∀ (cfg : WorkflowConfig) (tags : Nat → String → String)
        (classify : String → Bool) (fuel : Nat) (st : RunState)
        (m : WorkflowMovement),
      cfg.movements.find? (fun mv => mv.name == st.current) = some m →
      st.iteration < cfg.maxIterations →
      resolveLeaf classify (m.rules.getD [])
        (tags (st.iteration + 1) m.name) = none →
      runLoop cfg tags classify (fuel + 1) st =
        .error (.noMatch m.name (tags (st.iteration + 1) m.name))) := by
  have part1 : ∀ (classify : String → Bool) (m : WorkflowMovement)
      (tag : String),
      resolveLeaf classify (m.rules.getD []) tag = none →
      executeLeaf classify m tag = .error (.noMatch m.name tag) := by
    intro classify m tag h
    simp only [executeLeaf, h]
  refine ⟨part1, ?_, ?_⟩
  · intro m outcomes h
    simp only [executeFanOut, h]
  · intro cfg tags classify fuel st m hfind hlt hres
    rw [runLoop]
    rw [if_neg (by omega : ¬ st.iteration ≥ cfg.maxIterations)]
    rw [hfind]
    dsimp only
    rw [part1 classify m _ hres]

/-- Lookup in the completion-order association list recovers each branch's
own settled result, for any duplicate-free completion order. -/
theorem lookup_map_of_mem (f : Nat → Except String String) :
    ∀ (order : List Nat) (i : Nat), order.Nodup → i ∈ order →
      (order.map (fun j => (j, f j))).lookup i = some (f i) := by
  intro order
  induction order with
  | nil =>
    intro i _ hmem
    cases hmem
  | cons j rest ih =>
    intro i hnd hmem
    simp only [List.map_cons, List.lookup]
    by_cases hij : i = j
    · subst hij
      simp
    · rw [show (i == j) = false by simpa using hij]
      exact ih i hnd.of_cons ((List.mem_cons.mp hmem).resolve_left hij)

/-- **C8.** In a fan-out movement, `runAll` yields one settled outcome per
sub-movement in input (declaration) order regardless of completion order,
and the returned array is a total function of every branch's settled result
(full join, no early short-circuit): for any completion permutation the
settled array equals the branch results in input order, with successful
outcomes still present at their original positions; and the failure
propagated after the join is exactly the first failure in input order (all
branches declared before it succeeded). -/
theorem claim_C8 :
    (∀ (n : Nat) (f : Nat → Except String String) (order : List Nat),
      order.Perm (List.range n) →
      runAllSettled n f order = (List.range n).map (fun i => some (f i))) ∧
    (∀ (settled : List (Except String String)) (e : String),
      firstFailure settled = some e ↔
        ∃ pre post, settled = pre ++ .error e :: post ∧
          ∀ x ∈ pre, ∃ a, x = .ok a) := by
  constructor
  · intro n f order hperm
    have hnd : order.Nodup := (hperm.nodup_iff).mpr (List.nodup_range n)
    unfold runAllSettled joinInInputOrder completionArrivals
    refine List.map_congr_left ?_
    intro i hi
    exact lookup_map_of_mem f order i hnd (hperm.mem_iff.mpr hi)
  · intro settled e
    induction settled with
    | nil => simp [firstFailure]
    | cons x xs ih =>
      cases x with
      | error e' =>
        simp only [firstFailure, List.findSome?_cons]
        constructor
        · intro h
          simp at h
          exact ⟨[], xs, by simp [h], by simp⟩
        · rintro ⟨pre, post, heq, hok⟩
          cases pre with
          | nil =>
            simp at heq
            simp [heq.1]
          | cons p pre' =>
            have hp : p ∈ p :: pre' := List.mem_cons_self p pre'
            obtain ⟨a, ha⟩ := hok p hp
            simp at heq
            cases heq.1.trans ha
      | ok a =>
        rw [firstFailure] at ih ⊢
        simp only [List.findSome?_cons]
        rw [ih]
        constructor
        · rintro ⟨pre, post, heq, hok⟩
          refine ⟨.ok a :: pre, post, by simp [heq], ?_⟩
          intro x hx
          rcases List.mem_cons.mp hx with h | h
          · exact ⟨a, h⟩
          · exact hok x h
        · rintro ⟨pre, post, heq, hok⟩
          cases pre with
          | nil => simp at heq
          | cons p pre' =>
            simp at heq
            refine ⟨pre', post, heq.2, ?_⟩
            intro x hx
            exact hok x (List.mem_cons_of_mem p hx)

/-- Witness for C8: four branches, one fast-failing (`"boom"` at index 1)
and three succeeding, completing in the order `[2, 0, 3, 1]`: the settled
array still lists all four outcomes in declaration order, with the three
successes present; obtained by applying `claim_C8`. -/
theorem claim_C8_witness :
    runAllSettled 4
        (fun i => if i == 1 then Except.error "boom"
                  else Except.ok "approved") [2, 0, 3, 1] =
      [some (Except.ok "approved"), some (Except.error "boom"),
       some (Except.ok "approved"), some (Except.ok "approved")] :=
  (claim_C8.1 4
      (fun i => if i == 1 then Except.error "boom"
                else Except.ok "approved") [2, 0, 3, 1]
      (by decide)).trans rfl

theorem noDoubleDash_tail (c : Char) (l : List Char)
    (h : noDoubleDash (c :: l) = true) : noDoubleDash l = true := by
  cases l with
  | nil => rfl
  | cons d rest =>
    simp only [noDoubleDash, Bool.and_eq_true] at h
    exact h.2

theorem noDoubleDash_cons (c : Char) (tail : List Char)
    (h : noDoubleDash tail = true)
    (hh : ∀ d, tail.head? = some d → (c == '-' && d == '-') = false) :
    noDoubleDash (c :: tail) = true := by
  cases tail with
  | nil => rfl
  | cons d rest =>
    simp only [noDoubleDash, Bool.and_eq_true]
    exact ⟨by simp [hh d rfl], h⟩

theorem collapse_mem (P : Char → Prop) :
    ∀ l : List Char, (∀ c ∈ l, P c) → ∀ c ∈ collapseDashes l, P c := by
  intro l
  induction l using collapseDashes.induct with
  | case1 =>
    intro _ c hc
    cases hc
  | case2 d =>
    intro h c hc
    exact h c hc
  | case3 c d rest hdash ih =>
    intro h x hx
    rw [collapseDashes, if_pos hdash] at hx
    exact ih (fun y hy => h y (List.mem_cons_of_mem c hy)) x hx
  | case4 c d rest hdash ih =>
    intro h x hx
    rw [collapseDashes, if_neg hdash] at hx
    rcases List.mem_cons.mp hx with rfl | hx
    · exact h x (List.mem_cons_self x _)
    · exact ih (fun y hy => h y (List.mem_cons_of_mem c hy)) x hx

theorem collapse_head : ∀ l : List Char,
    (collapseDashes l).head? = l.head? := by
  intro l
  induction l using collapseDashes.induct with
  | case1 => rfl
  | case2 d => rfl
  | case3 c d rest hdash ih =>
    rw [collapseDashes, if_pos hdash, ih]
    simp only [List.head?_cons]
    rcases Bool.and_eq_true_iff.mp hdash with ⟨h1, h2⟩
    rw [show c = '-' by simpa using h1, show d = '-' by simpa using h2]
  | case4 c d rest hdash ih =>
    rw [collapseDashes, if_neg hdash]
    simp only [List.head?_cons]

theorem collapse_noDD : ∀ l : List Char,
    noDoubleDash (collapseDashes l) = true := by
  intro l
  induction l using collapseDashes.induct with
  | case1 => rfl
  | case2 d => rfl
  | case3 c d rest hdash ih =>
    rw [collapseDashes, if_pos hdash]
    exact ih
  | case4 c d rest hdash ih =>
    rw [collapseDashes, if_neg hdash]
    refine noDoubleDash_cons c _ ih ?_
    intro e he
    rw [collapse_head (d :: rest)] at he
    simp only [List.head?_cons, Option.some.injEq] at he
    subst he
    simpa using hdash



theorem stripLead_subset (l : List Char) : ∀ c ∈ stripLeadDash l, c ∈ l := by
  cases l with
  | nil => intro c hc; cases hc
  | cons d rest =>
    intro c hc
    rw [stripLeadDash] at hc
    split at hc
    · exact List.mem_cons_of_mem d hc
    · exact hc

theorem stripLead_noDD (l : List Char) (h : noDoubleDash l = true) :
    noDoubleDash (stripLeadDash l) = true := by
  cases l with
  | nil => rfl
  | cons d rest =>
    rw [stripLeadDash]
    split
    · exact noDoubleDash_tail d rest h
    · exact h

theorem stripLead_head (l : List Char) (h : noDoubleDash l = true) :
    (stripLeadDash l).head? ≠ some '-' := by
  cases l with
  | nil => simp [stripLeadDash]
  | cons d rest =>
    rw [stripLeadDash]
    split
    · rename_i hd
      cases rest with
      | nil => simp
      | cons e rest' =>
        simp only [noDoubleDash, Bool.and_eq_true, Bool.not_eq_true'] at h
        simp only [List.head?_cons, ne_eq, Option.some.injEq]
        intro he
        subst he
        rw [hd] at h
        simp at h
    · rename_i hd
      simp only [List.head?_cons, ne_eq, Option.some.injEq]
      intro he
      subst he
      simp at hd

theorem head?_take (l : List Char) (k : Nat) :
    (l.take k).head? = none ∨ (l.take k).head? = l.head? := by
  cases k with
  | zero => simp
  | succ k =>
    cases l with
    | nil => simp
    | cons c rest => simp [List.take]

theorem noDoubleDash_take :
    ∀ (l : List Char) (k : Nat), noDoubleDash l = true →
      noDoubleDash (l.take k) = true := by
  intro l
  induction l with
  | nil => intro k _; simp [noDoubleDash]
  | cons c rest ih =>
    intro k h
    cases k with
    | zero => rfl
    | succ k =>
      rw [List.take_succ_cons]
      refine noDoubleDash_cons c _ (ih k (noDoubleDash_tail c rest h)) ?_
      intro d hd
      rcases head?_take rest k with hn | hh
      · rw [hn] at hd; cases hd
      · rw [hh] at hd
        cases rest with
        | nil => cases hd
        | cons e rest' =>
          simp only [List.head?_cons, Option.some.injEq] at hd
          subst hd
          cases rest' with
          | nil =>
            simp only [noDoubleDash, Bool.and_eq_true, Bool.not_eq_true'] at h
            exact h.1
          | cons f r =>
            simp only [noDoubleDash, Bool.and_eq_true, Bool.not_eq_true'] at h
            exact h.1

theorem stripTrail_subset (l : List Char) : ∀ c ∈ stripTrailDash l, c ∈ l := by
  rw [stripTrailDash]
  split
  · intro c hc
    exact List.dropLast_subset l hc
  · intro c hc
    exact hc

theorem stripTrail_noDD (l : List Char) (h : noDoubleDash l = true) :
    noDoubleDash (stripTrailDash l) = true := by
  rw [stripTrailDash]
  split
  · rw [List.dropLast_eq_take]
    exact noDoubleDash_take l _ h
  · exact h

theorem stripTrail_head (l : List Char) (h : l.head? ≠ some '-') :
    (stripTrailDash l).head? ≠ some '-' := by
  rw [stripTrailDash]
  split
  · rw [List.dropLast_eq_take]
    rcases head?_take l (l.length - 1) with hn | hh
    · rw [hn]; simp
    · rw [hh]; exact h
  · exact h

theorem head?_take_ne (l : List Char) (k : Nat) (h : l.head? ≠ some '-') :
    (l.take k).head? ≠ some '-' := by
  rcases head?_take l k with hn | hh
  · rw [hn]; simp
  · rw [hh]; exact h

/-- **C10.** For every input string, `sanitizeBranchName` returns a string of
length at most 50 whose characters are all lowercase ASCII letters, digits,
or hyphens, that does not start with a hyphen, and that contains no two
consecutive hyphens. -/
theorem claim_C10 :
    ∀ s : String,
      (sanitizeBranchName s).length ≤ 50 ∧
      (∀ c ∈ (sanitizeBranchName s).data, isAllowedChar c = true) ∧
      noDoubleDash (sanitizeBranchName s).data = true ∧
      (sanitizeBranchName s).data.head? ≠ some '-' := by
  intro s
  have hdata : (sanitizeBranchName s).data =
      (stripTrailDash (stripLeadDash (collapseDashes
        (replaceDisallowed (s.data.map jsToLower))))).take 50 := rfl
  set l1 := replaceDisallowed (s.data.map jsToLower) with hl1
  have h1 : ∀ c ∈ l1, isAllowedChar c = true := by
    intro c hc
    rw [hl1, replaceDisallowed] at hc
    simp only [List.mem_map] at hc
    obtain ⟨a, _, ha⟩ := hc
    by_cases hall : isAllowedChar a = true
    · rw [if_pos hall] at ha; rw [← ha]; exact hall
    · rw [if_neg hall] at ha; rw [← ha]; decide
  set l2 := collapseDashes l1 with hl2
  have h2mem : ∀ c ∈ l2, isAllowedChar c = true :=
    collapse_mem _ l1 h1
  have h2dd : noDoubleDash l2 = true := collapse_noDD l1
  set l3 := stripLeadDash l2 with hl3
  have h3mem : ∀ c ∈ l3, isAllowedChar c = true :=
    fun c hc => h2mem c (stripLead_subset l2 c hc)
  have h3dd : noDoubleDash l3 = true := stripLead_noDD l2 h2dd
  have h3hd : l3.head? ≠ some '-' := stripLead_head l2 h2dd
  set l4 := stripTrailDash l3 with hl4
  have h4mem : ∀ c ∈ l4, isAllowedChar c = true :=
    fun c hc => h3mem c (stripTrail_subset l3 c hc)
  have h4dd : noDoubleDash l4 = true := stripTrail_noDD l3 h3dd
  have h4hd : l4.head? ≠ some '-' := stripTrail_head l3 h3hd
  refine ⟨?_, ?_, ?_, ?_⟩
  · show (sanitizeBranchName s).data.length ≤ 50
    rw [hdata]
    simp [List.length_take_le 50 l4]
  · intro c hc
    rw [hdata] at hc
    exact h4mem c (List.take_subset 50 l4 hc)
  · rw [hdata]
    exact noDoubleDash_take l4 50 h4dd
  · rw [hdata]
    exact head?_take_ne l4 50 h4hd

theorem span_append (p : Char → Bool) :
    ∀ (xs ys : List Char), (∀ c ∈ xs, p c = true) →
      (∀ c, ys.head? = some c → p c = false) →
      (xs ++ ys).takeWhile p = xs ∧ (xs ++ ys).dropWhile p = ys := by
  intro xs
  induction xs with
  | nil =>
    intro ys _ hy
    cases ys with
    | nil => exact ⟨rfl, rfl⟩
    | cons y ys' =>
      have := hy y rfl
      constructor
      · simp [List.takeWhile_cons, this]
      · simp [List.dropWhile_cons, this]
  | cons x xs' ih =>
    intro ys hx hy
    have hpx : p x = true := hx x (List.mem_cons_self x xs')
    have hrest := ih ys (fun c hc => hx c (List.mem_cons_of_mem x hc)) hy
    constructor
    · simp [List.takeWhile_cons, hpx, hrest.1]
    · simp [List.dropWhile_cons, hpx, hrest.2]

theorem stripLit_append : ∀ (lit cs : List Char),
    stripLit lit (lit ++ cs) = some cs := by
  intro lit
  induction lit with
  | nil => intro cs; rfl
  | cons l ls ih =>
    intro cs
    simp only [List.cons_append, stripLit, beq_self_eq_true, if_true]
    exact ih cs

theorem stripLit_eq : ∀ (lit cs r : List Char),
    stripLit lit cs = some r → cs = lit ++ r := by
  intro lit
  induction lit with
  | nil =>
    intro cs r h
    simp only [stripLit, Option.some.injEq] at h
    simp [h]
  | cons l ls ih =>
    intro cs r h
    cases cs with
    | nil => cases h
    | cons c cs' =>
      simp only [stripLit] at h
      split at h
      · rename_i hcl
        have := ih cs' r h
        simp only [List.cons_append]
        rw [show c = l by simpa using hcl, this]
      · cases h

theorem wsNewlineGap_eq (cs r : List Char) (h : wsNewlineGap cs = some r) :
    ∃ w, cs = w ++ r ∧ IsWsRun w ∧ '\n' ∈ w := by
  rw [wsNewlineGap] at h
  split at h
  · rename_i hcont
    refine ⟨cs.takeWhile isJsWs, ?_, ?_, ?_⟩
    · rw [show r = cs.dropWhile isJsWs by simpa using h.symm]
      exact Eq.symm (List.takeWhile_append_dropWhile _ _)
    · intro c hc
      exact List.mem_takeWhile_imp hc
    · exact List.elem_iff.mp hcont
  · cases h

theorem wsNewlineGap_append (w ys : List Char) (hw : IsWsRun w)
    (hnl : '\n' ∈ w) (hy : ∀ c, ys.head? = some c → isJsWs c = false) :
    wsNewlineGap (w ++ ys) = some ys := by
  have hspan := span_append isJsWs w ys hw hy
  rw [wsNewlineGap, hspan.1, hspan.2]
  rw [if_pos (List.elem_iff.mpr hnl)]

theorem takeToken_eq (cs : List Char) (v r : List Char)
    (h : takeToken cs = some (v, r)) :
    ∃ w, cs = w ++ v ++ r ∧ IsWsRun w ∧ IsTok v := by
  rw [takeToken] at h
  split at h
  · cases h
  · rename_i hne
    simp only [Option.some.injEq, Prod.mk.injEq] at h
    refine ⟨cs.takeWhile isJsWs, ?_, ?_, ?_, ?_⟩
    · rw [← h.1, ← h.2]
      rw [List.append_assoc]
      rw [List.takeWhile_append_dropWhile]
      exact Eq.symm (List.takeWhile_append_dropWhile _ _)
    · intro c hc
      exact List.mem_takeWhile_imp hc
    · rw [← h.1]
      intro hv
      rw [hv] at hne
      simp at hne
    · intro c hc
      rw [← h.1] at hc
      have := List.mem_takeWhile_imp hc
      simpa using this

theorem takeToken_append (w v r : List Char) (hw : IsWsRun w) (hv : IsTok v)
    (hr : ∀ c, r.head? = some c → isJsWs c = true) :
    takeToken (w ++ (v ++ r)) = some (v, r) := by
  have hhead : ∀ c, (v ++ r).head? = some c → isJsWs c = false := by
    intro c hc
    cases v with
    | nil => exact absurd rfl hv.1
    | cons v0 v' =>
      simp only [List.cons_append, List.head?_cons, Option.some.injEq] at hc
      rw [← hc]
      exact hv.2 v0 (List.mem_cons_self v0 v')
  have hspan := span_append isJsWs w (v ++ r) hw hhead
  have hx2 : ∀ c ∈ v, (!isJsWs c) = true := fun c hc => by simp [hv.2 c hc]
  have hy2 : ∀ c, r.head? = some c → (!isJsWs c) = false :=
    fun c hc => by simp [hr c hc]
  have hspan2 := span_append (fun c => !isJsWs c) v r hx2 hy2
  rw [takeToken, hspan.2, hspan2.1, hspan2.2]
  rw [if_neg (by
    intro hemp
    exact hv.1 (List.isEmpty_iff.mp hemp))]

theorem takeToken_isSome (w : List Char) (c0 : Char) (l : List Char)
    (hw : IsWsRun w) (hc0 : isJsWs c0 = false) :
    ∃ v r, takeToken (w ++ c0 :: l) = some (v, r) := by
  have hspan := span_append isJsWs w (c0 :: l) hw
    (fun c hc => by
      simp only [List.head?_cons, Option.some.injEq] at hc
      subst hc
      exact hc0)
  refine ⟨c0 :: l.takeWhile (fun c => !isJsWs c),
    l.dropWhile (fun c => !isJsWs c), ?_⟩
  rw [takeToken, hspan.2]
  simp [List.takeWhile_cons, List.dropWhile_cons, hc0]



/-- Right-associated structural decomposition of a position where the whole
worktree pattern matches. -/
def WorktreeShape (cs : List Char) : Prop :=
  ∃ w1 w2 v1 w3 w4 v2 suf,
    cs = "worktree:".data ++ (w1 ++ ("baseBranch:".data ++ (w2 ++ (v1 ++
      (w3 ++ ("branchName:".data ++ (w4 ++ (v2 ++ suf)))))))) ∧
    IsWsRun w1 ∧ '\n' ∈ w1 ∧ IsWsRun w2 ∧ IsTok v1 ∧
    IsWsRun w3 ∧ '\n' ∈ w3 ∧ IsWsRun w4 ∧ IsTok v2

theorem matchAt_shape (cs : List Char) (x : List Char × List Char)
    (h : matchWorktreeAt cs = some x) : WorktreeShape cs := by
  rw [matchWorktreeAt] at h
  split at h
  · cases h
  · rename_i r1 h1
    split at h
    · cases h
    · rename_i r2 h2
      split at h
      · cases h
      · rename_i r3 h3
        split at h
        · cases h
        · rename_i p1 v1 r4 h4
          split at h
          · cases h
          · rename_i r5 h5
            split at h
            · cases h
            · rename_i r6 h6
              split at h
              · cases h
              · rename_i p2 v2 r7 h7
                obtain ⟨w1, hr1, hw1, hnl1⟩ := wsNewlineGap_eq r1 r2 h2
                obtain ⟨w2, hr3, hw2, hv1⟩ := takeToken_eq r3 v1 r4 h4
                obtain ⟨w3, hr4, hw3, hnl3⟩ := wsNewlineGap_eq r4 r5 h5
                obtain ⟨w4, hr6, hw4, hv2⟩ := takeToken_eq r6 v2 r7 h7
                refine ⟨w1, w2, v1, w3, w4, v2, r7, ?_, hw1, hnl1, hw2, hv1,
                  hw3, hnl3, hw4, hv2⟩
                rw [stripLit_eq _ _ _ h1, hr1, stripLit_eq _ _ _ h3, hr3,
                  hr4, stripLit_eq _ _ _ h6, hr6]
                simp [List.append_assoc]

theorem head_notWs_of_cons (c0 : Char) (l0 X : List Char)
    (hc0 : isJsWs c0 = false) :
    ∀ c, ((c0 :: l0) ++ X).head? = some c → isJsWs c = false := by
  intro c hc
  simp only [List.cons_append, List.head?_cons, Option.some.injEq] at hc
  rw [← hc]
  exact hc0

theorem head_ws_of_wsRun (w X : List Char) (hw : IsWsRun w) (hne : w ≠ []) :
    ∀ c, (w ++ X).head? = some c → isJsWs c = true := by
  cases w with
  | nil => exact absurd rfl hne
  | cons c0 w' =>
    intro c hc
    simp only [List.cons_append, List.head?_cons, Option.some.injEq] at hc
    rw [← hc]
    exact hw c0 (List.mem_cons_self c0 w')

theorem matchAt_of_shape (cs : List Char) (h : WorktreeShape cs) :
    (matchWorktreeAt cs).isSome = true := by
  obtain ⟨w1, w2, v1, w3, w4, v2, suf, heq, hw1, hnl1, hw2, hv1, hw3, hnl3,
    hw4, hv2⟩ := h
  have e1 : stripLit "worktree:".data cs =
      some (w1 ++ ("baseBranch:".data ++ (w2 ++ (v1 ++
        (w3 ++ ("branchName:".data ++ (w4 ++ (v2 ++ suf)))))))) := by
    rw [heq]
    exact stripLit_append _ _
  have e2 : wsNewlineGap (w1 ++ ("baseBranch:".data ++ (w2 ++ (v1 ++
      (w3 ++ ("branchName:".data ++ (w4 ++ (v2 ++ suf)))))))) =
      some ("baseBranch:".data ++ (w2 ++ (v1 ++
        (w3 ++ ("branchName:".data ++ (w4 ++ (v2 ++ suf))))))) := by
    refine wsNewlineGap_append w1 _ hw1 hnl1 ?_
    exact head_notWs_of_cons 'b' "aseBranch:".data _ (by decide)
  have e3 : stripLit "baseBranch:".data ("baseBranch:".data ++ (w2 ++ (v1 ++
      (w3 ++ ("branchName:".data ++ (w4 ++ (v2 ++ suf))))))) =
      some (w2 ++ (v1 ++ (w3 ++ ("branchName:".data ++ (w4 ++ (v2 ++ suf)))))) :=
    stripLit_append _ _
  have hw3ne : w3 ≠ [] := by
    intro hnil
    rw [hnil] at hnl3
    cases hnl3
  have e4 : takeToken (w2 ++ (v1 ++ (w3 ++ ("branchName:".data ++
      (w4 ++ (v2 ++ suf)))))) =
      some (v1, w3 ++ ("branchName:".data ++ (w4 ++ (v2 ++ suf)))) := by
    refine takeToken_append w2 v1 _ hw2 hv1 ?_
    exact head_ws_of_wsRun w3 _ hw3 hw3ne
  have e5 : wsNewlineGap (w3 ++ ("branchName:".data ++ (w4 ++ (v2 ++ suf)))) =
      some ("branchName:".data ++ (w4 ++ (v2 ++ suf))) := by
    refine wsNewlineGap_append w3 _ hw3 hnl3 ?_
    exact head_notWs_of_cons 'b' "ranchName:".data _ (by decide)
  have e6 : stripLit "branchName:".data ("branchName:".data ++
      (w4 ++ (v2 ++ suf))) = some (w4 ++ (v2 ++ suf)) :=
    stripLit_append _ _
  obtain ⟨c0, v2', hv2eq⟩ : ∃ c0 v2', v2 = c0 :: v2' := by
    cases v2 with
    | nil => exact absurd rfl hv2.1
    | cons c0 v2' => exact ⟨c0, v2', rfl⟩
  have e7 : ∃ v r, takeToken (w4 ++ (v2 ++ suf)) = some (v, r) := by
    rw [hv2eq, List.cons_append]
    exact takeToken_isSome w4 c0 (v2' ++ suf) hw4
      (hv2.2 c0 (by rw [hv2eq]; exact List.mem_cons_self c0 v2'))
  obtain ⟨v, r, e7⟩ := e7
  simp only [matchWorktreeAt, e1, e2, e3, e4, e5, e6, e7, Option.isSome_some]

theorem scan_eq_some : ∀ (cs : List Char) (x : List Char × List Char),
    scanWorktree cs = some x →
    ∃ pre rest, cs = pre ++ rest ∧ matchWorktreeAt rest = some x := by
  intro cs
  induction cs with
  | nil =>
    intro x h
    cases h
  | cons c cs' ih =>
    intro x h
    rw [scanWorktree] at h
    split at h
    · rename_i r heq
      cases h
      exact ⟨[], c :: cs', rfl, heq⟩
    · rename_i heq
      obtain ⟨pre, rest, hsplit, hmatch⟩ := ih x h
      exact ⟨c :: pre, rest, by rw [List.cons_append, hsplit], hmatch⟩

theorem scan_isSome_append : ∀ (pre rest : List Char)
    (x : List Char × List Char), matchWorktreeAt rest = some x →
    (scanWorktree (pre ++ rest)).isSome = true := by
  intro pre
  induction pre with
  | nil =>
    intro rest x h
    rw [List.nil_append]
    cases rest with
    | nil =>
      rw [show matchWorktreeAt [] = none from rfl] at h
      cases h
    | cons c cs =>
      rw [scanWorktree, h]
      rfl
  | cons p pre' ih =>
    intro rest x h
    rw [List.cons_append, scanWorktree]
    cases hm : matchWorktreeAt (p :: (pre' ++ rest)) with
    | some r => rfl
    | none =>
      exact ih rest x h

theorem parse_isSome_eq (content : String) :
    (parseWorktreeConfig content).isSome =
      (scanWorktree content.data).isSome := by
  rw [parseWorktreeConfig]
  split
  · rename_i v1 v2 heq
    rw [heq]
    rfl
  · rename_i heq
    rw [heq]
    rfl

/-- **C9.** For every input string, `parseWorktreeConfig` returns a
`WorktreeConfig` (carrying the captured values) iff the string contains a
`worktree:` marker after which, across at least one line break, a
`baseBranch:` key with a non-whitespace value is followed, across at least
one line break, by a `branchName:` key with a non-whitespace value — in that
order; for every other input (including a block listing the two keys in the
opposite order, as in the second conjunct) it returns `null`. -/
theorem claim_C9 :
    (∀ content : String,
      (parseWorktreeConfig content).isSome = true ↔
        HasWorktreeBlock content) ∧
    parseWorktreeConfig "worktree:\n  branchName: feat\n  baseBranch: main" =
      none := by
  constructor
  · intro content
    rw [parse_isSome_eq]
    constructor
    · intro h
      obtain ⟨x, hx⟩ := Option.isSome_iff_exists.mp h
      obtain ⟨pre, rest, hsplit, hmatch⟩ := scan_eq_some _ x hx
      obtain ⟨w1, w2, v1, w3, w4, v2, suf, heq, hw1, hnl1, hw2, hv1, hw3,
        hnl3, hw4, hv2⟩ := matchAt_shape rest x hmatch
      refine ⟨pre, w1, w2, v1, w3, w4, v2, suf, ?_, hw1, hnl1, hw2, hv1,
        hw3, hnl3, hw4, hv2⟩
      rw [hsplit, heq]
      simp [List.append_assoc]
    · intro h
      obtain ⟨pre, w1, w2, v1, w3, w4, v2, suf, heq, hw1, hnl1, hw2, hv1,
        hw3, hnl3, hw4, hv2⟩ := h
      have hshape : WorktreeShape ("worktree:".data ++ (w1 ++
          ("baseBranch:".data ++ (w2 ++ (v1 ++ (w3 ++ ("branchName:".data ++
            (w4 ++ (v2 ++ suf))))))))) :=
        ⟨w1, w2, v1, w3, w4, v2, suf, rfl, hw1, hnl1, hw2, hv1, hw3, hnl3,
          hw4, hv2⟩
      have hm := matchAt_of_shape _ hshape
      obtain ⟨x, hx⟩ := Option.isSome_iff_exists.mp hm
      have hdata : content.data = pre ++ ("worktree:".data ++ (w1 ++
          ("baseBranch:".data ++ (w2 ++ (v1 ++ (w3 ++ ("branchName:".data ++
            (w4 ++ (v2 ++ suf))))))))) := by
        rw [heq]
        simp [List.append_assoc]
      rw [hdata]
      exact scan_isSome_append pre _ x hx
  · rfl

/-- Witness for C9: a concrete Planner output with the keys in order parses
successfully; obtained by applying `claim_C9` with the explicit structural
decomposition. -/
theorem claim_C9_witness :
    (parseWorktreeConfig
      "worktree:\n baseBranch: main\n branchName: feat").isSome = true :=
  (claim_C9.1 _).mpr
    ⟨[], ['\n', ' '], [' '], "main".data, ['\n', ' '], [' '], "feat".data,
      [], by decide, by unfold IsWsRun; decide, by decide,
      by unfold IsWsRun; decide, by unfold IsTok; decide,
      by unfold IsWsRun; decide, by decide, by unfold IsWsRun; decide,
      by unfold IsTok; decide⟩

/-- Witness for C6: a leaf movement whose only rule expects `"done"`
receives the unmatched tag `"unknown"` and the run surfaces the fatal
no-match error naming the movement and the signal; and a fan-out movement
whose only aggregate rule is `all("approved")` receives branch outcomes
containing `"needs_fix"` and the executor fails with the fatal error naming
the movement and the outcomes signal; both obtained by applying
`claim_C6`. -/
theorem claim_C6_witness :
    runLoop ⟨"w", [⟨"plan", "", some [makeRule "done" "COMPLETE"]⟩], "plan", 10⟩
        (fun _ _ => "unknown") (fun _ => false) 11 ⟨"plan", 0, 0⟩ =
      .error (.noMatch "plan" "unknown") ∧
    executeFanOut
        ⟨"reviewers", "", some [makeAggRule .all "approved" "COMPLETE"]⟩
        [("arch-review", "approved"), ("qa-review", "needs_fix")] =
      .error (.noAggregateMatch "reviewers"
        [("arch-review", "approved"), ("qa-review", "needs_fix")]) :=
  ⟨claim_C6.2.2 ⟨"w", [⟨"plan", "", some [makeRule "done" "COMPLETE"]⟩], "plan", 10⟩
      (fun _ _ => "unknown") (fun _ => false) 10 ⟨"plan", 0, 0⟩
      ⟨"plan", "", some [makeRule "done" "COMPLETE"]⟩ (by decide) (by decide)
      (by decide),
    claim_C6.2.1
      ⟨"reviewers", "", some [makeAggRule .all "approved" "COMPLETE"]⟩
      [("arch-review", "approved"), ("qa-review", "needs_fix")] (by decide)⟩

/-- Witness for C10: the sanitised form of a concrete mixed-case branch name
satisfies all four invariants; obtained by applying `claim_C10`. -/
theorem claim_C10_witness :
    (sanitizeBranchName "Add User-Authentication!!").length ≤ 50 ∧
    (∀ c ∈ (sanitizeBranchName "Add User-Authentication!!").data,
      isAllowedChar c = true) ∧
    noDoubleDash (sanitizeBranchName "Add User-Authentication!!").data =
      true ∧
    (sanitizeBranchName "Add User-Authentication!!").data.head? ≠ some '-' :=
  claim_C10 "Add User-Authentication!!"

end Takt
